import Mathlib

/-!
Verification of the xv6 color-menu console driver (`kernel/console.c`).

The development shallowly embeds the console's state and operations:
the circular input line buffer (`input.buf`, `r`, `w`, `e`), the
Alt-c / Alt-o / Alt-l menu-arm flags, the menu controller
(selection, pen color, overlay save/restore/redraw), the CGA screen
canvas (`cgaputc`, scroll, repaint), and the reader `consoleread`.

Machine-integer conventions of the embedding:
* `uint` indices `r`, `w`, `e` are modelled as `Nat` (they are compared
  un-wrapped in the source; storage indices take `% 128` exactly where the
  source writes `% INPUT_BUF`).
* the CGA cells (`ushort`) are `Nat` values; every store to `crt` is
  truncated `% 65536` as the `ushort` assignment does;
* C's signed `char` sign-extension (in `backgroundBackup`) is modelled by
  `signExtChar`, producing the 32-bit two's-complement bit pattern.
* the screen and the backup buffer are total functions `Nat → Nat`;
  loops writing them are `writeLoop`, a fold that performs one update
  per iteration in the loop order of the source.
-/

namespace Console

/-- `INPUT_BUF = 128`. -/
def INPUT_BUF : Nat := 128

/-- Reading `input.buf[i % INPUT_BUF]`; the source always indexes modulo 128. -/
def bufAt (buf : List Nat) (i : Nat) : Nat := buf.getD (i % 128) 0

/-- The palette table `clrs[16]` from console.c lines 19–35. -/
def clrs : List Nat :=
  [0x0000, 0x0000, 0x0100, 0x1000, 0x0200, 0x2000, 0x0300, 0x3000,
   0x0400, 0x4000, 0x0500, 0x5000, 0x0600, 0x6000, 0x0700, 0x7000]

/-- `clrs[i]` (reads are always in bounds in the source; default 0). -/
def clrsAt (i : Nat) : Nat := clrs.getD i 0

/-- The menu frame string `menustr` (console.c line 418), as byte values. -/
def menuStr : List Nat :=
  ("/---<FG>--- ---<BG>---\\|Black     |Black     ||Blue      |Blue      ||Green     |Green     ||Aqua      |Aqua      ||Red       |Red       ||Purple    |Purple    ||Yellow    |Yellow    ||White     |White     |\\---------------------/").toList.map Char.toNat

def menuStrAt (i : Nat) : Nat := menuStr.getD i 0

/-- Screen position written at loop index `i` of the 230-cell overlay loops
(`showMenu` / `saveBackground` / `loadBackground`): `startingPosition` is reset
to `57 + 80 * (i / 23)` whenever `i % 23 == 0` and incremented each step. -/
def regionPos (i : Nat) : Nat := 57 + 80 * (i / 23) + i % 23

/-- Generic screen/buffer writing loop: iteration `n` writes value
`v n (current cell at p n)` to position `p n`.  Mirrors the
`for (i = 0; i < count; ++i) arr[p i] = v i (arr[p i]);` loops of the source. -/
def writeLoop (p : Nat → Nat) (v : Nat → Nat → Nat) (scr : Nat → Nat) : Nat → (Nat → Nat)
  | 0 => scr
  | n + 1 =>
    let s := writeLoop p v scr n
    fun j => if j = p n then v n (s (p n)) else s j

/-- `showMenu()` (console.c 420–430): draws `menustr` over the overlay region
with attribute `0x0f00`. -/
def showMenu (scr : Nat → Nat) : Nat → Nat :=
  writeLoop regionPos (fun i _ => (((menuStrAt i) &&& 0xff) ||| 0x0f00) % 65536) scr 230

/-- `saveBackground()` (console.c 433–442): `backgroundBackup[i] = crt[pos i]`.
`backgroundBackup` is a `char` array, so only the low byte of the cell is kept. -/
def saveBackground (scr bk : Nat → Nat) : Nat → Nat :=
  writeLoop (fun i => i) (fun i _ => scr (regionPos i) % 256) bk 230

/-- The 32-bit two's-complement bit pattern of `(int)(char) b` for a byte `b`:
C sign-extends a signed `char` whose high bit is set. -/
def signExtChar (b : Nat) : Nat := if b < 128 then b else 0xFFFFFF00 + b

/-- `loadBackground()` (console.c 445–455):
`crt[pos i] = backgroundBackup[i] | currentColor`, where `backgroundBackup[i]`
is a signed `char` (promoted with sign extension) and the store truncates to
`ushort`. -/
def loadBackground (bk : Nat → Nat) (color : Nat) (scr : Nat → Nat) : Nat → Nat :=
  writeLoop regionPos (fun i _ => ((signExtChar (bk i)) ||| color) % 65536) scr 230

/-- `repaint()` (console.c 514–518): rewrite every cell's attribute to
`currentColor`, keeping the character byte. -/
def repaint (color : Nat) (scr : Nat → Nat) : Nat → Nat :=
  writeLoop (fun i => i) (fun _ old => ((old &&& 0xff) ||| color) % 65536) scr 2000

/-- `repaintLastRow()` (console.c 520–524): same rewrite for cells 1840..1919. -/
def repaintLastRow (color : Nat) (scr : Nat → Nat) : Nat → Nat :=
  writeLoop (fun i => 1840 + i) (fun _ old => ((old &&& 0xff) ||| color) % 65536) scr 80

/-- `computeLowerBound` (console.c 490–493). -/
def computeLowerBound (x : Nat) : Nat := (if x % 2 = 1 then 149 else 138) + x / 2 * 80

/-- `displaySelection` (console.c 482–487): highlight the 10 cells of the
selected swatch with attribute `0xf000`. -/
def displaySelection (cur : Nat) (scr : Nat → Nat) : Nat → Nat :=
  writeLoop (fun i => computeLowerBound cur + i)
    (fun _ old => ((old &&& 0xff) ||| 0xf000) % 65536) scr 10

/-- `getColor()` (console.c 496–502). -/
def getColor (sel color : Nat) : Nat :=
  if sel % 2 = 1 then (color &&& 0x0fff) ||| clrsAt sel
  else (color &&& 0xf0ff) ||| clrsAt sel

/-- `getBrightColor()` (console.c 505–511). -/
def getBrightColor (sel color : Nat) : Nat :=
  if sel % 2 = 1 then (color &&& 0x0fff) ||| (clrsAt sel + 0x8000)
  else (color &&& 0xf0ff) ||| (clrsAt sel + 0x0800)

/-- The console's mutable state touched by `consoleintr` / `consoleread`:
the input buffer with its three indices, the two sequence flags, the menu
status and selection, the pen color, the CGA cell array and the overlay
backup buffer. -/
structure CState where
  buf : List Nat
  r : Nat
  w : Nat
  e : Nat
  flagC : Bool
  flagO : Bool
  menuStatus : Bool
  currentSelection : Nat
  currentColor : Nat
  screen : Nat → Nat
  backup : Nat → Nat

/-- `handleInput(c)` (console.c 458–479). `(currentSelection - 2 + 16) % 16`
is computed on nonnegative ints, hence equals `(currentSelection + 14) % 16`. -/
def handleInput (c : Nat) (s : CState) : CState :=
  if c = 115 then {s with currentSelection := (s.currentSelection + 2) % 16}
  else if c = 119 then {s with currentSelection := (s.currentSelection + 14) % 16}
  else if c = 100 ∨ c = 97 then
    {s with currentSelection :=
      if s.currentSelection % 2 = 1 then s.currentSelection - 1 else s.currentSelection + 1}
  else if c = 101 then
    let col := getColor s.currentSelection s.currentColor
    {s with currentColor := col, screen := repaint col s.screen}
  else if c = 114 then
    let col := getBrightColor s.currentSelection s.currentColor
    {s with currentColor := col, screen := repaint col s.screen}
  else s

/-- The menu-mode arm of `consoleintr`'s `default:` case (console.c 298–304):
`handleInput(c); showMenu(); displaySelection(currentSelection);
if (c != 0) clearFlags();`.  None of these emit echoes. -/
def menuStep (c : Nat) (s : CState) : CState :=
  let s1 := handleInput c s
  let s2 := {s1 with screen := displaySelection s1.currentSelection (showMenu s1.screen)}
  if c ≠ 0 then {s2 with flagC := false, flagO := false} else s2

/-- The `C('U')` kill-line loop (console.c 252–256):
`while (e != w && buf[(e-1) % 128] != '\n') { e--; echo BACKSPACE; }`.
Returns the new `e` and the number of BACKSPACE echoes.  The fuel argument is
instantiated with `e - w`, which bounds the iteration count whenever the
buffer invariant `w ≤ e` holds (the only region the source can be in). -/
def killLineLoop (buf : List Nat) (w : Nat) : Nat → Nat → Nat × Nat
  | 0, e => (e, 0)
  | fuel + 1, e =>
    if e ≠ w ∧ bufAt buf (e - 1) ≠ 10 then
      let p := killLineLoop buf w fuel (e - 1)
      (p.1, p.2 + 1)
    else (e, 0)

/-- One character of `consoleintr` (console.c 238–312): the `switch (c)` body.
Key codes: `C('P') = 16`, `C('U') = 21`, `C('H') = 8`, DEL `= 127`,
`A('c') = 199`, `A('o') = 211`, `A('l') = 208`, `C('D') = 4`.
Returns the updated state and the list of characters passed to `consputc`
(`BACKSPACE` is `256`).  `procdump`/`wakeup` are external and stateless here. -/
def step (c : Nat) (s : CState) : CState × List Nat :=
  if c = 16 then
    ({s with flagC := false, flagO := false}, [])
  else if c = 21 then
    let p := killLineLoop s.buf s.w (s.e - s.w) s.e
    ({s with e := p.1, flagC := false, flagO := false}, List.replicate p.2 256)
  else if c = 8 ∨ c = 127 then
    if s.menuStatus then ({s with flagC := false, flagO := false}, [])
    else if s.e ≠ s.w then
      ({s with e := s.e - 1, flagC := false, flagO := false}, [256])
    else ({s with flagC := false, flagO := false}, [])
  else if c = 199 then
    ({s with flagC := true, flagO := false}, [])
  else if c = 211 then
    (if s.flagO then {s with flagC := false, flagO := false}
     else if s.flagC then {s with flagO := true}
     else {s with flagC := false, flagO := false}, [])
  else if c = 208 then
    (if s.flagC && s.flagO then
       if s.menuStatus then
         {s with screen := loadBackground s.backup s.currentColor s.screen,
                 menuStatus := false, flagC := false, flagO := false}
       else
         {s with backup := saveBackground s.screen s.backup,
                 menuStatus := true, flagC := false, flagO := false}
     else {s with flagC := false, flagO := false}, [])
  else
    if s.menuStatus then (menuStep c s, [])
    else if c ≠ 0 ∧ s.e - s.r < 128 then
      let c' := if c = 13 then 10 else c
      let e' := s.e + 1
      let w' := if c' = 10 ∨ c' = 4 ∨ e' = s.r + 128 then e' else s.w
      ({s with buf := s.buf.set (s.e % 128) (c' % 256), e := e', w := w',
               flagC := false, flagO := false}, [c'])
    else (s, [])

/-- Processing a batch of characters (the `while ((c = getc()) >= 0)` loop),
keeping only the state. -/
def stepList (cs : List Nat) (s : CState) : CState :=
  cs.foldl (fun t c => (step c t).1) s

/-- The copy loop of `consoleread` (console.c 323–345).  `n` is the remaining
byte budget, `copied` the number of bytes already copied in this call
(the source's `n < target` test is `copied > 0`).  Returns
`some (bytes, remaining budget, new read index)`; `none` models reaching
`sleep` (the caller would block). -/
def consumeLoop (buf : List Nat) (w : Nat) : Nat → Nat → Nat → Option (List Nat × Nat × Nat)
  | 0, r, _ => some ([], 0, r)
  | n + 1, r, copied =>
    if r = w then none
    else
      let c := bufAt buf r
      if c = 4 then
        some ([], n + 1, if copied > 0 then r else r + 1)
      else if c = 10 then
        some ([c], n, r + 1)
      else
        (consumeLoop buf w n (r + 1) (copied + 1)).map fun p => (c :: p.1, p.2.1, p.2.2)

/-- `consoleread` with byte budget `n` (`target = n`): returns the copied
bytes, the returned count `target - n`, and the new read index. -/
def consumeLine (n : Nat) (s : CState) : Option (List Nat × Nat × Nat) :=
  (consumeLoop s.buf s.w n s.r 0).map fun p => (p.1, n - p.2.1, p.2.2)

/-- Cursor/screen effect of the first half of `cgaputc` (console.c 164–169):
newline advances to the next row start, `BACKSPACE` (256) moves back one
(no-op at 0), any other character is stored at the cursor with the current
color.  `pos` cannot go negative here, matching the `int` code. -/
def advancePos (c pos color : Nat) (scr : Nat → Nat) : Nat × (Nat → Nat) :=
  if c = 10 then (pos + (80 - pos % 80), scr)
  else if c = 256 then (if pos > 0 then pos - 1 else pos, scr)
  else (pos + 1, fun j => if j = pos then (((c &&& 0xff) ||| color)) % 65536 else scr j)

/-- `memmove(crt, crt+80, sizeof(crt[0])*23*80)` (console.c 175): cells
0..1839 take the old contents of cells 80..1919. -/
def scrollMove (scr : Nat → Nat) : Nat → Nat :=
  fun j => if j < 1840 then scr (j + 80) else scr j

/-- `memset(crt+pos, 0, sizeof(crt[0])*(24*80 - pos))` (console.c 177): cells
from the moved-back cursor up to 1919 are cleared to 0. -/
def scrollClear (pos1 : Nat) (scr : Nat → Nat) : Nat → Nat :=
  fun j => if pos1 ≤ j ∧ j < 1920 then 0 else scr j

/-- The scroll block of `cgaputc` (console.c 174–179): `memmove` of 23 rows,
cursor back one row, `memset` of the cells from the moved-back cursor to the
end of row 23, and `repaintLastRow` when the pen color is not the plain
default. -/
def scrollStep (pos color : Nat) (scr : Nat → Nat) : Nat × (Nat → Nat) :=
  let pos1 := pos - 80
  (pos1,
    if color ≠ 0x0700 then repaintLastRow color (scrollClear pos1 (scrollMove scr))
    else scrollClear pos1 (scrollMove scr))

/-- `cgaputc(c)` (console.c 153–186) given the cursor position read from the
CRT registers: advance, fatal-halt check (`pos < 0 || pos > 2000` panics;
the negative case cannot arise from a nonnegative entry position), scroll
when the cursor row reaches 24, and the trailing `crt[pos] = ' ' | color`.
`none` is the `panic` branch. -/
def cgaputc (c pos color : Nat) (scr : Nat → Nat) : Option (Nat × (Nat → Nat)) :=
  let a := advancePos c pos color scr
  if a.1 > 2000 then none
  else
    let b := if a.1 / 80 ≥ 24 then scrollStep a.1 color a.2 else a
    some (b.1, fun j => if j = b.1 then ((32 ||| color) % 65536) else b.2 j)

/-! ### Specification-side definitions (the claims' vocabulary) -/

/-- Foreground nibble of an attribute value (bits 8–11). -/
def fgNibble (c : Nat) : Nat := c / 2 ^ 8 % 2 ^ 4

/-- Background nibble of an attribute value (bits 12–15). -/
def bgNibble (c : Nat) : Nat := c / 2 ^ 12 % 2 ^ 4

/-- Character byte of a CGA cell (bits 0–7). -/
def charByte (c : Nat) : Nat := c % 2 ^ 8

/-- Attribute byte of a CGA cell (bits 8–15). -/
def attrByte (c : Nat) : Nat := c / 2 ^ 8 % 2 ^ 8

/-- The buffer invariant of the spec: `read ≤ write ≤ edit ≤ read + N`. -/
def Inv (s : CState) : Prop := s.r ≤ s.w ∧ s.w ≤ s.e ∧ s.e ≤ s.r + INPUT_BUF

/-- Claim C8's "copies rows 1..24 of the grid up to rows 0..23": every cell of
rows 0..23 takes the old contents of the cell one row below. -/
def claimCopied (scr : Nat → Nat) : Nat → Nat :=
  fun j => if j < 1920 then scr (j + 80) else scr j

/-- Claim C8's "clears the new last row to blank cells": the last row of the
scroll region (cells 1840..1919, the row `repaintLastRow` repaints). -/
def claimCleared (scr : Nat → Nat) : Nat → Nat :=
  fun j => if 1840 ≤ j ∧ j < 1920 then 0 else claimCopied scr j

/-- The scroll effect exactly as claim C8 words it: copy rows 1..24 up to
rows 0..23, clear the new last row of the scroll region to blank cells, and
repaint that row's attribute bytes to the pen color iff it differs from the
plain default `0x0700`. -/
def claimScrollScreen (color : Nat) (scr : Nat → Nat) : Nat → Nat :=
  if color ≠ 0x0700 then
    fun j => if 1840 ≤ j ∧ j < 1920 then (((claimCleared scr j &&& 0xff) ||| color) % 65536)
      else claimCleared scr j
  else claimCleared scr

/-- Initial console state: empty buffer, flags clear, menu hidden,
selection 0, default color `0x0700`, blank screen. -/
def initState : CState where
  buf := List.replicate 128 0
  r := 0
  w := 0
  e := 0
  flagC := false
  flagO := false
  menuStatus := false
  currentSelection := 0
  currentColor := 0x0700
  screen := fun _ => 0
  backup := fun _ => 0

end Console

namespace Console

/-! ### Generic write-loop lemmas -/

theorem writeLoop_miss (p : Nat → Nat) (v : Nat → Nat → Nat) (scr : Nat → Nat) :
    ∀ n k, (∀ j, j < n → p j ≠ k) → writeLoop p v scr n k = scr k := by
  intro n
  induction n with
  | zero => intro k _; rfl
  | succ m ih =>
    intro k h
    show (if k = p m then _ else writeLoop p v scr m k) = scr k
    rw [if_neg (fun hk => h m (Nat.lt_succ_self m) hk.symm)]
    exact ih k (fun j hj => h j (Nat.lt_succ_of_lt hj))

theorem writeLoop_hit (p : Nat → Nat) (v : Nat → Nat → Nat) (scr : Nat → Nat) :
    ∀ n i, i < n → (∀ j, j < n → p j = p i → j = i) →
      writeLoop p v scr n (p i) = v i (scr (p i)) := by
  intro n
  induction n with
  | zero => intro i h; omega
  | succ m ih =>
    intro i hi hinj
    by_cases him : i = m
    · subst him
      show (if p i = p i then v i (writeLoop p v scr i (p i)) else writeLoop p v scr i (p i)) = _
      rw [if_pos rfl]
      rw [writeLoop_miss p v scr i (p i)
        (fun j hj hji => by have := hinj j (Nat.lt_succ_of_lt hj) hji; omega)]
    · have hne : p i ≠ p m := fun hpe => him (hinj m (Nat.lt_succ_self m) hpe.symm).symm
      show (if p i = p m then v m (writeLoop p v scr m (p m)) else writeLoop p v scr m (p i)) = _
      rw [if_neg hne]
      exact ih i (by omega) (fun j hj hji => hinj j (Nat.lt_succ_of_lt hj) hji)

theorem regionPos_inj {i j : Nat} (hi : i < 230) (hj : j < 230)
    (h : regionPos i = regionPos j) : i = j := by
  unfold regionPos at h
  omega

theorem loadBackground_at (bk : Nat → Nat) (color : Nat) (scr : Nat → Nat) {i : Nat}
    (hi : i < 230) :
    loadBackground bk color scr (regionPos i) = ((signExtChar (bk i)) ||| color) % 65536 := by
  exact writeLoop_hit _ _ _ 230 i hi (fun j hj hje => regionPos_inj hj hi hje)

theorem saveBackground_at (scr bk : Nat → Nat) {i : Nat} (hi : i < 230) :
    saveBackground scr bk i = scr (regionPos i) % 256 := by
  have := writeLoop_hit (fun i => i) (fun i _ => scr (regionPos i) % 256) bk 230 i hi
    (fun j hj hje => hje)
  exact this

theorem repaint_at (color : Nat) (scr : Nat → Nat) {j : Nat} (hj : j < 2000) :
    repaint color scr j = ((scr j &&& 0xff) ||| color) % 65536 := by
  have := writeLoop_hit (fun i => i) (fun _ old => ((old &&& 0xff) ||| color) % 65536)
    scr 2000 j hj (fun k hk hke => hke)
  exact this

theorem repaintLastRow_at (color : Nat) (scr : Nat → Nat) {j : Nat}
    (h1 : 1840 ≤ j) (h2 : j < 1920) :
    repaintLastRow color scr j = ((scr j &&& 0xff) ||| color) % 65536 := by
  have hj : j = 1840 + (j - 1840) := by omega
  rw [repaintLastRow, hj]
  have := writeLoop_hit (fun i => 1840 + i) (fun _ old => ((old &&& 0xff) ||| color) % 65536)
    scr 80 (j - 1840) (by omega) (fun k hk hke => by simp only [] at hke; omega)
  rw [this]

theorem repaintLastRow_miss (color : Nat) (scr : Nat → Nat) {j : Nat}
    (h : j < 1840 ∨ 1920 ≤ j) :
    repaintLastRow color scr j = scr j := by
  exact writeLoop_miss _ _ _ 80 j (fun k hk => by omega)

/-! ### Kill-line loop bounds -/

theorem killLineLoop_bounds (buf : List Nat) (w : Nat) :
    ∀ fuel e, w ≤ e → w ≤ (killLineLoop buf w fuel e).1 ∧ (killLineLoop buf w fuel e).1 ≤ e := by
  intro fuel
  induction fuel with
  | zero => intro e h; exact ⟨h, Nat.le_refl e⟩
  | succ m ih =>
    intro e h
    simp only [killLineLoop]
    by_cases hc : e ≠ w ∧ bufAt buf (e - 1) ≠ 10
    · rw [if_pos hc]
      have := ih (e - 1) (by omega)
      exact ⟨this.1, by omega⟩
    · rw [if_neg hc]
      exact ⟨h, Nat.le_refl e⟩

end Console

namespace Console

/-! ### Bit-level toolkit -/

theorem testBit_div_pow (x n i : Nat) : (x / 2 ^ n).testBit i = x.testBit (n + i) := by
  rw [← Nat.shiftRight_eq_div_pow]
  exact Nat.testBit_shiftRight x

theorem testBit_slice (x n k i : Nat) :
    (x / 2 ^ n % 2 ^ k).testBit i = (decide (i < k) && x.testBit (n + i)) := by
  rw [Nat.testBit_mod_two_pow, testBit_div_pow]

theorem testBit_of_slice_zero {x n k : Nat} (h : x / 2 ^ n % 2 ^ k = 0) {i : Nat}
    (hi : i < k) : x.testBit (n + i) = false := by
  have h0 : (x / 2 ^ n % 2 ^ k).testBit i = false := by rw [h]; exact Nat.zero_testBit i
  rw [testBit_slice] at h0
  simpa [hi] using h0

theorem testBit_of_mod_zero {x k : Nat} (h : x % 2 ^ k = 0) {i : Nat} (hi : i < k) :
    x.testBit i = false := by
  have h0 : (x % 2 ^ k).testBit i = false := by rw [h]; exact Nat.zero_testBit i
  rw [Nat.testBit_mod_two_pow] at h0
  simpa [hi] using h0

theorem fg_preserved_odd (x K : Nat) (hK : K / 2 ^ 8 % 2 ^ 4 = 0) :
    fgNibble ((x &&& 0x0fff) ||| K) = fgNibble x := by
  apply Nat.eq_of_testBit_eq
  intro i
  unfold fgNibble
  rw [testBit_slice, testBit_slice]
  by_cases hi : i < 4
  · have hKbit : K.testBit (8 + i) = false := testBit_of_slice_zero hK hi
    have hMbit : Nat.testBit 0x0fff (8 + i) = true := by interval_cases i <;> decide
    simp [hi, Nat.testBit_or, Nat.testBit_and, hKbit, hMbit]
  · simp [hi]

theorem bg_set_odd (x K : Nat) (hK : K < 2 ^ 16) :
    bgNibble ((x &&& 0x0fff) ||| K) = K / 2 ^ 12 := by
  apply Nat.eq_of_testBit_eq
  intro i
  unfold bgNibble
  rw [testBit_slice, testBit_div_pow]
  by_cases hi : i < 4
  · have hMbit : Nat.testBit 0x0fff (12 + i) = false := by interval_cases i <;> decide
    simp [hi, Nat.testBit_or, Nat.testBit_and, hMbit]
  · have hlt : K < 2 ^ (12 + i) := by
      have h2 : (2 : Nat) ^ 16 ≤ 2 ^ (12 + i) := Nat.pow_le_pow_right (by omega) (by omega)
      omega
    simp [hi, Nat.testBit_lt_two_pow hlt]

theorem bg_preserved_even (x K : Nat) (hK : K / 2 ^ 12 % 2 ^ 4 = 0) :
    bgNibble ((x &&& 0xf0ff) ||| K) = bgNibble x := by
  apply Nat.eq_of_testBit_eq
  intro i
  unfold bgNibble
  rw [testBit_slice, testBit_slice]
  by_cases hi : i < 4
  · have hKbit : K.testBit (12 + i) = false := testBit_of_slice_zero hK hi
    have hMbit : Nat.testBit 0xf0ff (12 + i) = true := by interval_cases i <;> decide
    simp [hi, Nat.testBit_or, Nat.testBit_and, hKbit, hMbit]
  · simp [hi]

theorem fg_set_even (x K : Nat) (hK : K < 2 ^ 12) :
    fgNibble ((x &&& 0xf0ff) ||| K) = K / 2 ^ 8 := by
  apply Nat.eq_of_testBit_eq
  intro i
  unfold fgNibble
  rw [testBit_slice, testBit_div_pow]
  by_cases hi : i < 4
  · have hMbit : Nat.testBit 0xf0ff (8 + i) = false := by interval_cases i <;> decide
    simp [hi, Nat.testBit_or, Nat.testBit_and, hMbit]
  · have hlt : K < 2 ^ (8 + i) := by
      have h2 : (2 : Nat) ^ 12 ≤ 2 ^ (8 + i) := Nat.pow_le_pow_right (by omega) (by omega)
      omega
    simp [hi, Nat.testBit_lt_two_pow hlt]

theorem charByte_repaint (x color : Nat) (hc : color % 2 ^ 8 = 0) :
    charByte (((x &&& 0xff) ||| color) % 65536) = charByte x := by
  apply Nat.eq_of_testBit_eq
  intro i
  unfold charByte
  have h16 : (65536 : Nat) = 2 ^ 16 := by norm_num
  rw [h16, Nat.testBit_mod_two_pow, Nat.testBit_mod_two_pow, Nat.testBit_mod_two_pow]
  by_cases hi : i < 8
  · have hMbit : Nat.testBit 0xff i = true := by interval_cases i <;> decide
    have hcbit : color.testBit i = false := testBit_of_mod_zero hc hi
    have hi16 : i < 16 := by omega
    simp [hi, hi16, Nat.testBit_or, Nat.testBit_and, hMbit, hcbit]
  · simp [hi]

theorem attrByte_repaint (x color : Nat) :
    attrByte (((x &&& 0xff) ||| color) % 65536) = attrByte color := by
  apply Nat.eq_of_testBit_eq
  intro i
  unfold attrByte
  have h16 : (65536 : Nat) = 2 ^ 16 := by norm_num
  rw [h16, testBit_slice, testBit_slice, Nat.testBit_mod_two_pow]
  by_cases hi : i < 8
  · have hMbit : Nat.testBit 0xff (8 + i) = false := by
      exact Nat.testBit_lt_two_pow (by
        have : (2 : Nat) ^ 8 ≤ 2 ^ (8 + i) := Nat.pow_le_pow_right (by omega) (by omega)
        omega)
    have hi16 : 8 + i < 16 := by omega
    simp [hi, hi16, Nat.testBit_or, Nat.testBit_and, hMbit]
  · simp [hi]

theorem charByte_load (b color : Nat) (hb : b < 2 ^ 8) (hc : color % 2 ^ 8 = 0) :
    charByte ((b ||| color) % 65536) = b := by
  apply Nat.eq_of_testBit_eq
  intro i
  unfold charByte
  have h16 : (65536 : Nat) = 2 ^ 16 := by norm_num
  rw [h16, Nat.testBit_mod_two_pow, Nat.testBit_mod_two_pow]
  by_cases hi : i < 8
  · have hcbit : color.testBit i = false := testBit_of_mod_zero hc hi
    have hi16 : i < 16 := by omega
    simp [hi, hi16, Nat.testBit_or, hcbit]
  · have hbbit : b.testBit i = false := Nat.testBit_lt_two_pow (by
      have : (2 : Nat) ^ 8 ≤ 2 ^ i := Nat.pow_le_pow_right (by omega) (by omega)
      omega)
    simp [hi, hbbit]

theorem attrByte_load (b color : Nat) (hb : b < 2 ^ 8) :
    attrByte ((b ||| color) % 65536) = attrByte color := by
  apply Nat.eq_of_testBit_eq
  intro i
  unfold attrByte
  have h16 : (65536 : Nat) = 2 ^ 16 := by norm_num
  rw [h16, testBit_slice, testBit_slice, Nat.testBit_mod_two_pow]
  by_cases hi : i < 8
  · have hbbit : b.testBit (8 + i) = false := Nat.testBit_lt_two_pow (by
      have : (2 : Nat) ^ 8 ≤ 2 ^ (8 + i) := Nat.pow_le_pow_right (by omega) (by omega)
      omega)
    have hi16 : 8 + i < 16 := by omega
    simp [hi, hi16, Nat.testBit_or, hbbit]
  · simp [hi]

theorem lor_low_zero {a b k : Nat} (ha : a % 2 ^ k = 0) (hb : b % 2 ^ k = 0) :
    (a ||| b) % 2 ^ k = 0 := by
  apply Nat.eq_of_testBit_eq
  intro i
  rw [Nat.testBit_mod_two_pow, Nat.zero_testBit]
  by_cases hi : i < k
  · simp [hi, Nat.testBit_or, testBit_of_mod_zero ha hi, testBit_of_mod_zero hb hi]
  · simp [hi]

theorem land_low_zero {x k : Nat} (M : Nat) (hx : x % 2 ^ k = 0) :
    (x &&& M) % 2 ^ k = 0 := by
  apply Nat.eq_of_testBit_eq
  intro i
  rw [Nat.testBit_mod_two_pow, Nat.zero_testBit]
  by_cases hi : i < k
  · simp [hi, Nat.testBit_and, testBit_of_mod_zero hx hi]
  · simp [hi]

theorem clrsAt_low (sel : Nat) : clrsAt sel % 2 ^ 8 = 0 := by
  by_cases h : sel < 16
  · interval_cases sel <;> decide
  · unfold clrsAt
    rw [List.getD_eq_default]
    · decide
    · simp [clrs]; omega

theorem clrsAt_lt (sel : Nat) : clrsAt sel < 2 ^ 15 := by
  by_cases h : sel < 16
  · interval_cases sel <;> decide
  · unfold clrsAt
    rw [List.getD_eq_default]
    · decide
    · simp [clrs]; omega

theorem getColor_low (sel color : Nat) (hc : color % 2 ^ 8 = 0) :
    getColor sel color % 2 ^ 8 = 0 := by
  unfold getColor
  split
  · exact lor_low_zero (land_low_zero _ hc) (clrsAt_low sel)
  · exact lor_low_zero (land_low_zero _ hc) (clrsAt_low sel)

theorem getBrightColor_low (sel color : Nat) (hc : color % 2 ^ 8 = 0) :
    getBrightColor sel color % 2 ^ 8 = 0 := by
  unfold getBrightColor
  have h8 : (clrsAt sel + 0x8000) % 2 ^ 8 = 0 := by
    have := clrsAt_low sel; omega
  have h08 : (clrsAt sel + 0x0800) % 2 ^ 8 = 0 := by
    have := clrsAt_low sel; omega
  split
  · exact lor_low_zero (land_low_zero _ hc) h8
  · exact lor_low_zero (land_low_zero _ hc) h08

end Console

namespace Console

/-! ### Soundness of the consoleread copy loop -/

theorem consumeLoop_sound (buf : List Nat) (w : Nat) :
    ∀ n r copied bytes rem r2,
      consumeLoop buf w n r copied = some (bytes, rem, r2) →
      (bytes.length + rem = n) ∧
      (∀ i, i < bytes.length → bytes.getD i 0 = bufAt buf (r + i)) ∧
      (∀ i, i < bytes.length → bytes.getD i 0 ≠ 4) ∧
      (∀ i, i < bytes.length → bytes.getD i 0 = 10 → i + 1 = bytes.length) ∧
      ((rem = 0 ∧ r2 = r + bytes.length)
        ∨ (0 < bytes.length ∧ bytes.getD (bytes.length - 1) 0 = 10 ∧ r2 = r + bytes.length)
        ∨ (bufAt buf (r + bytes.length) = 4 ∧
            ((copied + bytes.length = 0 ∧ r2 = r + bytes.length + 1)
              ∨ (0 < copied + bytes.length ∧ r2 = r + bytes.length)))) ∧
      (r ≤ w → r ≤ r2 ∧ r2 ≤ w) := by
  intro n
  induction n with
  | zero =>
    intro r copied bytes rem r2 h
    simp only [consumeLoop, Option.some.injEq, Prod.mk.injEq] at h
    obtain ⟨h1, h2, h3⟩ := h
    subst h1; subst h2; subst h3
    refine ⟨rfl, ?_, ?_, ?_, Or.inl ⟨rfl, rfl⟩, fun hw => ⟨Nat.le_refl r, hw⟩⟩
    · intro i hi; simp at hi
    · intro i hi; simp at hi
    · intro i hi; simp at hi
  | succ m ih =>
    intro r copied bytes rem r2 h
    simp only [consumeLoop] at h
    by_cases hrw : r = w
    · rw [if_pos hrw] at h; exact absurd h (by simp)
    · rw [if_neg hrw] at h
      by_cases h4 : bufAt buf r = 4
      · rw [if_pos h4] at h
        simp only [Option.some.injEq, Prod.mk.injEq] at h
        obtain ⟨h1, h2, h3⟩ := h
        subst h1; subst h2
        refine ⟨by simp, ?_, ?_, ?_, ?_, ?_⟩
        · intro i hi; simp at hi
        · intro i hi; simp at hi
        · intro i hi; simp at hi
        · refine Or.inr (Or.inr ⟨by simpa using h4, ?_⟩)
          by_cases hcop : copied > 0
          · rw [if_pos hcop] at h3
            exact Or.inr ⟨by simp only [List.length_nil]; omega, by simp [← h3]⟩
          · rw [if_neg hcop] at h3
            exact Or.inl ⟨by simp only [List.length_nil]; omega, by simp [← h3]⟩
        · intro hw
          have hrlt : r < w := by omega
          by_cases hcop : copied > 0
          · rw [if_pos hcop] at h3
            omega
          · rw [if_neg hcop] at h3
            omega
      · rw [if_neg h4] at h
        by_cases h10 : bufAt buf r = 10
        · rw [if_pos h10] at h
          simp only [Option.some.injEq, Prod.mk.injEq] at h
          obtain ⟨h1, h2, h3⟩ := h
          subst h1; subst h2; subst h3
          refine ⟨by simp only [List.length_singleton]; omega, ?_, ?_, ?_, ?_, ?_⟩
          · intro i hi
            simp only [List.length_singleton] at hi
            interval_cases i
            simp [h10]
          · intro i hi
            simp only [List.length_singleton] at hi
            interval_cases i
            simp [h10]
          · intro i hi
            simp only [List.length_singleton] at hi
            interval_cases i
            intro _; rfl
          · exact Or.inr (Or.inl ⟨by simp, by simp [h10], by simp⟩)
          · intro hw
            have : r < w := by omega
            exact ⟨by omega, by omega⟩
        · rw [if_neg h10] at h
          cases hrec : consumeLoop buf w m (r + 1) (copied + 1) with
          | none => rw [hrec] at h; exact absurd h (by simp)
          | some p =>
            obtain ⟨bytes', rem', r2'⟩ := p
            rw [hrec] at h
            simp only [Option.map_some', Option.some.injEq, Prod.mk.injEq] at h
            obtain ⟨h1, h2, h3⟩ := h
            subst h2; subst h3
            obtain ⟨IH1, IH2, IH3, IH4, IH5, IH6⟩ := ih (r + 1) (copied + 1) bytes' rem' r2' hrec
            subst h1
            refine ⟨by simp; omega, ?_, ?_, ?_, ?_, ?_⟩
            · intro i hi
              cases i with
              | zero => simp
              | succ j =>
                simp only [List.getD_cons_succ]
                have hj : j < bytes'.length := by simp at hi; omega
                have := IH2 j hj
                have harith : r + 1 + j = r + (j + 1) := by omega
                rw [harith] at this
                exact this
            · intro i hi
              cases i with
              | zero => simpa using h4
              | succ j =>
                simp only [List.getD_cons_succ]
                exact IH3 j (by simp at hi; omega)
            · intro i hi
              cases i with
              | zero => intro hx; exact absurd (by simpa using hx) h10
              | succ j =>
                simp only [List.getD_cons_succ]
                intro hx
                have := IH4 j (by simp at hi; omega) hx
                simp; omega
            · rcases IH5 with ⟨ha, hb⟩ | ⟨ha, hb, hc'⟩ | ⟨ha, hb⟩
              · exact Or.inl ⟨ha, by simp; omega⟩
              · refine Or.inr (Or.inl ⟨by simp, ?_, by simp; omega⟩)
                have hlen : bytes'.length = (bytes'.length - 1) + 1 := by omega
                rw [List.length_cons, Nat.add_sub_cancel, hlen, List.getD_cons_succ]
                exact hb
              · refine Or.inr (Or.inr ⟨?_, ?_⟩)
                · have harith2 : r + (bufAt buf r :: bytes').length = r + 1 + bytes'.length := by
                    simp only [List.length_cons]; omega
                  rw [harith2]
                  exact ha
                · rcases hb with ⟨hz, _⟩ | ⟨hp, he⟩
                  · exact absurd hz (by omega)
                  · refine Or.inr ⟨by simp only [List.length_cons]; omega, ?_⟩
                    simp only [List.length_cons]
                    omega
            · intro hw
              have hrlt : r < w := by omega
              have := IH6 (by omega)
              exact ⟨by omega, this.2⟩

end Console

namespace Console

/-- `handleInput` never touches the input buffer, its indices, the flags or
the menu status: it only updates the selection, the pen color and the screen. -/
theorem handleInput_frame (c : Nat) (s : CState) :
    (handleInput c s).r = s.r ∧ (handleInput c s).w = s.w ∧ (handleInput c s).e = s.e ∧
    (handleInput c s).buf = s.buf ∧ (handleInput c s).flagC = s.flagC ∧
    (handleInput c s).flagO = s.flagO ∧ (handleInput c s).menuStatus = s.menuStatus := by
  unfold handleInput
  split_ifs <;> simp

/-- `menuStep` never touches the input buffer or its indices. -/
theorem menuStep_frame (c : Nat) (s : CState) :
    (menuStep c s).r = s.r ∧ (menuStep c s).w = s.w ∧ (menuStep c s).e = s.e ∧
    (menuStep c s).buf = s.buf ∧ (menuStep c s).menuStatus = s.menuStatus := by
  obtain ⟨e1, e2, e3, e4, _, _, e5⟩ := handleInput_frame c s
  unfold menuStep
  split_ifs <;> simp [e1, e2, e3, e4, e5]

/-- A console state whose committed input is exactly "hi\n". -/
def hiState : CState :=
  {initState with buf := [104, 105, 10] ++ List.replicate 125 0, w := 3, e := 3}

/-- C1: whenever `consumeLine` (`consoleread`) with budget `n` completes on a
buffer with committed data (`read < write`), the copied bytes are exactly the
buffer contents from `read` forward; copying stops exactly when `n` bytes were
copied, when a newline was copied (inclusive, and newlines occur only as the
last copied byte), or when the end-of-input marker `C('D') = 4` is seen; the
marker is never copied, is consumed when nothing was copied yet, and is pushed
back (read index not advanced past it) when at least one byte was copied; the
returned count equals the number of copied bytes.  In particular, on committed
input "hi\n" it returns 3 bytes "hi\n". -/
theorem consoleread_copies_line (n : Nat) (s : CState) (bytes : List Nat) (cnt r2 : Nat)
    (hrw : s.r < s.w)
    (h : consumeLine n s = some (bytes, cnt, r2)) :
    (cnt = bytes.length ∧ bytes.length ≤ n) ∧
    (∀ i, i < bytes.length → bytes.getD i 0 = bufAt s.buf (s.r + i)) ∧
    (∀ i, i < bytes.length → bytes.getD i 0 ≠ 4) ∧
    (∀ i, i < bytes.length → bytes.getD i 0 = 10 → i + 1 = bytes.length) ∧
    ((bytes.length = n ∧ r2 = s.r + bytes.length)
      ∨ (0 < bytes.length ∧ bytes.getD (bytes.length - 1) 0 = 10 ∧ r2 = s.r + bytes.length)
      ∨ (bufAt s.buf (s.r + bytes.length) = 4 ∧
          ((bytes = [] ∧ r2 = s.r + 1) ∨ (bytes ≠ [] ∧ r2 = s.r + bytes.length)))) ∧
    consumeLine 100 hiState = some ([104, 105, 10], 3, 3) := by
  unfold consumeLine at h
  cases hrec : consumeLoop s.buf s.w n s.r 0 with
  | none => rw [hrec] at h; exact absurd h (by simp)
  | some p =>
    obtain ⟨b0, rem0, r20⟩ := p
    rw [hrec] at h
    simp only [Option.map_some', Option.some.injEq, Prod.mk.injEq] at h
    obtain ⟨hb, hcnt, hr⟩ := h
    subst hb; subst hcnt; subst hr
    obtain ⟨S1, S2, S3, S4, S5, _⟩ := consumeLoop_sound s.buf s.w n s.r 0 b0 rem0 r20 hrec
    refine ⟨⟨by omega, by omega⟩, S2, S3, S4, ?_, by decide⟩
    rcases S5 with ⟨ha, hb'⟩ | hcase | ⟨ha, hin⟩
    · exact Or.inl ⟨by omega, hb'⟩
    · exact Or.inr (Or.inl hcase)
    · refine Or.inr (Or.inr ⟨ha, ?_⟩)
      rcases hin with ⟨hz, he⟩ | ⟨hp, he⟩
      · exact Or.inl ⟨List.length_eq_zero.mp (by omega), by omega⟩
      · exact Or.inr ⟨by
          intro hnil
          rw [hnil] at hp
          simp at hp, he⟩

/-- C1 witness: the hypotheses hold for the concrete "hi\n" state, and the
scenario conclusion is obtained from the theorem. -/
theorem consoleread_copies_line_witness :
    hiState.r < hiState.w ∧ consumeLine 100 hiState = some ([104, 105, 10], 3, 3) :=
  ⟨by decide,
    (consoleread_copies_line 100 hiState [104, 105, 10] 3 3 (by decide)
      (by decide)).2.2.2.2.2⟩

set_option maxHeartbeats 1000000 in
/-- C2: the invariant `read ≤ write ≤ edit ≤ read + 128` is preserved by every
character processed by the interrupt handler (`step`, covering append,
kill-line, backspace, line commit, and the menu/sequence cases) and by every
completed `consumeLine` (`consoleread`) call. -/
theorem input_invariant_preserved :
    (∀ c s, Inv s → Inv (step c s).1) ∧
    (∀ n s bytes cnt r2, Inv s → consumeLine n s = some (bytes, cnt, r2) →
      Inv {s with r := r2}) := by
  constructor
  · intro c s hs
    have hkill := killLineLoop_bounds s.buf s.w (s.e - s.w) s.e hs.2.1
    obtain ⟨h1, h2, h3⟩ := hs
    obtain ⟨m1, m2, m3, _, _⟩ := menuStep_frame c s
    simp only [Inv, INPUT_BUF] at *
    simp only [step]
    split_ifs <;> simp [m1, m2, m3] <;> omega
  · intro n s bytes cnt r2 hs h
    obtain ⟨h1, h2, h3⟩ := hs
    unfold consumeLine at h
    cases hrec : consumeLoop s.buf s.w n s.r 0 with
    | none => rw [hrec] at h; exact absurd h (by simp)
    | some p =>
      obtain ⟨b0, rem0, r20⟩ := p
      rw [hrec] at h
      simp only [Option.map_some', Option.some.injEq, Prod.mk.injEq] at h
      obtain ⟨hb, hcnt, hr⟩ := h
      subst hr
      obtain ⟨_, _, _, _, _, S6⟩ := consumeLoop_sound s.buf s.w n s.r 0 b0 rem0 r20 hrec
      have := S6 h1
      simp only [INPUT_BUF] at h3
      simp only [Inv, INPUT_BUF]
      exact ⟨by omega, by omega, by omega⟩

/-- C2 witness: the invariant holds in the initial state and is preserved by
appending a character and by the concrete "hi\n" read. -/
theorem input_invariant_preserved_witness :
    Inv initState ∧ Inv (step 97 initState).1 ∧ Inv {hiState with r := 3} :=
  ⟨by unfold Inv; decide,
    input_invariant_preserved.1 97 initState (by unfold Inv; decide),
    input_invariant_preserved.2 100 hiState [104, 105, 10] 3 3 (by unfold Inv; decide)
      (by decide)⟩

end Console

namespace Console

/-- C3 counterexample: toggling is not restricted to the exact three-key
sequence with no other key interleaved — a NUL character (key code 0, as
produced for key releases) between Alt-o and Alt-l does not reset the
sequence flags, so Alt-c, Alt-o, NUL, Alt-l still toggles the menu on,
although NUL is not one of the three sequence keys. -/
theorem menuToggle_counterexample :
    (stepList [199, 211, 0, 208] initState).menuStatus = true ∧
    (0 : Nat) ∉ ([199, 211, 208] : List Nat) :=
  ⟨rfl, by decide⟩

/-- C3 (amended): the menu toggles only on Alt-l (208) — no other key changes
`menuStatus` — and only when both sequence flags are armed; characters that the
handler drops without effect (such as NUL) do not reset an armed sequence.
In particular Alt-c, Alt-o, Alt-o resets progress so a following Alt-l does not
toggle, while Alt-c, Alt-o, Alt-l toggles exactly once. -/
theorem menuToggle_sequence (c : Nat) (s : CState) :
    (c ≠ 208 → (step c s).1.menuStatus = s.menuStatus) ∧
    (s.flagC = false ∨ s.flagO = false → (step 208 s).1.menuStatus = s.menuStatus) ∧
    (stepList [199, 211, 211, 208] initState).menuStatus = false ∧
    (stepList [199, 211, 208] initState).menuStatus = true := by
  obtain ⟨_, _, _, _, mMenu⟩ := menuStep_frame c s
  refine ⟨?_, ?_, rfl, rfl⟩
  · intro hc
    simp only [step]
    split_ifs <;> simp_all
  · intro hf
    have hb : (s.flagC && s.flagO) = false := by
      rcases hf with hf | hf <;> simp [hf]
    simp only [step]
    norm_num [hb]

/-- C3 witness: instantiating the amended theorem at a concrete non-toggle key
and a concrete unarmed state. -/
theorem menuToggle_sequence_witness :
    (step 97 initState).1.menuStatus = initState.menuStatus ∧
    (step 208 initState).1.menuStatus = initState.menuStatus :=
  ⟨(menuToggle_sequence 97 initState).1 (by decide),
   (menuToggle_sequence 208 initState).2.1 (Or.inl rfl)⟩

/-- The state used in the C4 counterexample: menu open, one uncommitted
character 'a' in the input buffer. -/
def c4state : CState := {initState with menuStatus := true, e := 1, buf := List.replicate 128 97}

/-- C4 counterexample: while the menu is open, kill-line (Ctrl-U, key 21) is
not suppressed: it removes the uncommitted character from the input buffer
(`e` drops from 1 to 0) and emits one erase-echo (`BACKSPACE = 256`),
contradicting the claim that line-editing keys have no effect and emit no
erase-echo during menu mode. -/
theorem menuMode_counterexample :
    c4state.menuStatus = true ∧ (step 21 c4state).1.e = 0 ∧ c4state.e = 1 ∧
    (step 21 c4state).2 = [256] :=
  ⟨rfl, rfl, rfl, rfl⟩

/-- C4 (amended): while menu mode is active, every character other than the
toggle-sequence keys (199, 211, 208) and the control keys Ctrl-P (16),
Ctrl-U (21) and backspace (8 / 127) is routed to the menu handler and emits no
echo, leaving the input buffer untouched; backspace has no effect on the input
buffer and emits no erase-echo; but kill-line (Ctrl-U) is not suppressed — it
behaves on the input buffer exactly as it does with the menu closed, erase
echoes included. -/
theorem menuMode_routing (s : CState) (c : Nat) (hm : s.menuStatus = true) :
    ((c ≠ 16 ∧ c ≠ 21 ∧ c ≠ 8 ∧ c ≠ 127 ∧ c ≠ 199 ∧ c ≠ 211 ∧ c ≠ 208) →
      step c s = (menuStep c s, []) ∧ (menuStep c s).e = s.e ∧
        (menuStep c s).buf = s.buf ∧ (menuStep c s).w = s.w ∧ (menuStep c s).r = s.r) ∧
    ((c = 8 ∨ c = 127) →
      step c s = ({s with flagC := false, flagO := false}, [])) ∧
    (c = 21 →
      (step c s).1.e = (step c {s with menuStatus := false}).1.e ∧
      (step c s).1.buf = (step c {s with menuStatus := false}).1.buf ∧
      (step c s).2 = (step c {s with menuStatus := false}).2) := by
  obtain ⟨mr, mw, me, mbuf, _⟩ := menuStep_frame c s
  refine ⟨?_, ?_, ?_⟩
  · rintro ⟨n16, n21, n8, n127, n199, n211, n208⟩
    refine ⟨?_, me, mbuf, mw, mr⟩
    simp only [step]
    rw [if_neg n16, if_neg n21, if_neg (by tauto : ¬(c = 8 ∨ c = 127)),
      if_neg n199, if_neg n211, if_neg n208, if_pos hm]
  · rintro (h | h) <;> subst h <;> simp [step, hm]
  · intro h
    subst h
    simp [step]

/-- C4 witness: instantiating the amended theorem at concrete keys in a
concrete menu-open state. -/
theorem menuMode_routing_witness :
    step 97 c4state = (menuStep 97 c4state, []) ∧
    step 8 c4state = ({c4state with flagC := false, flagO := false}, []) ∧
    (step 21 c4state).2 = (step 21 {c4state with menuStatus := false}).2 :=
  ⟨((menuMode_routing c4state 97 rfl).1 (by decide)).1,
   (menuMode_routing c4state 8 rfl).2.1 (Or.inl rfl),
   ((menuMode_routing c4state 21 rfl).2.2 rfl).2.2⟩

/-- The state used in the C5 counterexample: both sequence flags armed. -/
def c5state : CState := {initState with flagC := true, flagO := true}

/-- C5 counterexample: a NUL character (which is not the next key of the
in-progress arm sequence) does not reset the sequence flags: with both flags
set and the menu closed, processing key 0 leaves both flags set, contradicting
the claim that they are reset after every such character. -/
theorem clearFlags_counterexample :
    (step 0 c5state).1.flagC = true ∧ (step 0 c5state).1.flagO = true :=
  ⟨rfl, rfl⟩

/-- C5 (amended): after a control key (16, 21, 8, 127) both flags are reset;
after any character outside the sequence keys (199, 211, 208): with the menu
open the flags are reset iff the character is non-NUL; with the menu closed the
flags are reset iff the character is non-NUL and the input buffer is not full,
and are left unchanged otherwise (NUL characters and characters dropped by a
full buffer do not reset the flags). -/
theorem clearFlags_behavior (s : CState) (c : Nat) :
    ((c = 16 ∨ c = 21 ∨ c = 8 ∨ c = 127) →
      (step c s).1.flagC = false ∧ (step c s).1.flagO = false) ∧
    ((c ≠ 16 ∧ c ≠ 21 ∧ c ≠ 8 ∧ c ≠ 127 ∧ c ≠ 199 ∧ c ≠ 211 ∧ c ≠ 208) →
      (s.menuStatus = true →
        (c ≠ 0 → (step c s).1.flagC = false ∧ (step c s).1.flagO = false) ∧
        (c = 0 → (step c s).1.flagC = s.flagC ∧ (step c s).1.flagO = s.flagO)) ∧
      (s.menuStatus = false →
        ((c ≠ 0 ∧ s.e - s.r < 128) →
          (step c s).1.flagC = false ∧ (step c s).1.flagO = false) ∧
        (¬(c ≠ 0 ∧ s.e - s.r < 128) →
          (step c s).1.flagC = s.flagC ∧ (step c s).1.flagO = s.flagO))) := by
  obtain ⟨_, _, _, _, hiC, hiO, _⟩ := handleInput_frame c s
  constructor
  · rintro (h | h | h | h) <;> subst h <;> simp [step] <;> split_ifs <;> simp
  · rintro ⟨n16, n21, n8, n127, n199, n211, n208⟩
    have hstep : step c s = if s.menuStatus then (menuStep c s, [])
        else if c ≠ 0 ∧ s.e - s.r < 128 then
          let c' := if c = 13 then 10 else c
          let e' := s.e + 1
          let w' := if c' = 10 ∨ c' = 4 ∨ e' = s.r + 128 then e' else s.w
          ({s with buf := s.buf.set (s.e % 128) (c' % 256), e := e', w := w',
                   flagC := false, flagO := false}, [c'])
        else (s, []) := by
      simp only [step]
      rw [if_neg n16, if_neg n21, if_neg (by tauto : ¬(c = 8 ∨ c = 127)),
        if_neg n199, if_neg n211, if_neg n208]
    constructor
    · intro hm
      constructor
      · intro hc0
        simp [hstep, hm, menuStep, hc0]
      · intro hc0
        subst hc0
        simp [hstep, hm, menuStep, hiC, hiO]
    · intro hm
      constructor
      · intro hcc
        simp [hstep, hm, hcc]
      · intro hcc
        simp [hstep, hm, hcc]

/-- C5 witness: instantiating the amended theorem at concrete keys and states:
a control key clears armed flags, and a NUL with the menu closed preserves
them. -/
theorem clearFlags_behavior_witness :
    ((step 16 c5state).1.flagC = false ∧ (step 16 c5state).1.flagO = false) ∧
    ((step 0 c5state).1.flagC = c5state.flagC ∧ (step 0 c5state).1.flagO = c5state.flagO) :=
  ⟨(clearFlags_behavior c5state 16).1 (Or.inl rfl),
   ((clearFlags_behavior c5state 0).2 (by decide) |>.2 rfl).2 (by decide)⟩

end Console

namespace Console

/-- A screen whose cells all hold the box-drawing character `0xB3` with
attribute `0x00`, used in the C6 counterexample. -/
def c6screen : Nat → Nat := fun _ => 0xB3

/-- C6 counterexample: save/restore is not attribute-exact for every screen
content.  With pen color `0x0700`, restoring a cell whose character byte is
`0xB3` (high bit set) yields cell `0xFFB3`: the attribute byte is `0xFF`, not
the pen color's attribute byte `0x07`, because `backgroundBackup` is a signed
`char` array and the character sign-extends when re-applied. -/
theorem overlay_restore_counterexample :
    loadBackground (saveBackground c6screen (fun _ => 0)) 0x0700 c6screen (regionPos 0) =
      0xFFB3 ∧
    attrByte 0xFFB3 = 0xFF ∧ attrByte 0x0700 = 0x07 ∧ (0xFF : Nat) ≠ 0x07 := by
  refine ⟨?_, by decide, by decide, by decide⟩
  rw [loadBackground_at _ _ _ (by omega), saveBackground_at _ _ (by omega)]
  decide

/-- C6 (amended): for every screen whose overlay-region cells carry character
bytes below `0x80` and every pen color with a clear low byte, opening the menu
(`saveBackground`) and closing it (`loadBackground`) restores each of the 230
overlay cells bit-for-bit in the character byte, while the attribute byte
becomes the pen color in effect at close time (cells with high-bit characters
are corrupted by sign extension, as the counterexample shows). -/
theorem overlay_save_restore (scr bk scr2 : Nat → Nat) (color : Nat)
    (hchar : ∀ i, i < 230 → scr (regionPos i) % 256 < 128)
    (hlow : color % 2 ^ 8 = 0) :
    ∀ i, i < 230 →
      charByte (loadBackground (saveBackground scr bk) color scr2 (regionPos i)) =
        charByte (scr (regionPos i)) ∧
      attrByte (loadBackground (saveBackground scr bk) color scr2 (regionPos i)) =
        attrByte color := by
  intro i hi
  rw [loadBackground_at _ _ _ hi, saveBackground_at _ _ hi]
  have hb : scr (regionPos i) % 256 < 128 := hchar i hi
  rw [signExtChar, if_pos hb]
  constructor
  · rw [charByte_load _ _ (by omega) hlow]
    norm_num [charByte]
  · rw [attrByte_load _ _ (by omega)]

/-- C6 witness: a concrete all-'A' screen restored under pen color `0x1200`. -/
theorem overlay_save_restore_witness :
    charByte (loadBackground (saveBackground (fun _ => 65) (fun _ => 0)) 0x1200
        (fun _ => 99) (regionPos 0)) = charByte 65 ∧
    attrByte (loadBackground (saveBackground (fun _ => 65) (fun _ => 0)) 0x1200
        (fun _ => 99) (regionPos 0)) = attrByte 0x1200 :=
  overlay_save_restore (fun _ => 65) (fun _ => 0) (fun _ => 99) 0x1200
    (fun i _ => by norm_num) (by norm_num) 0 (by norm_num)

/-- C7: `commitColor` (`getColor` / `getBrightColor`) with `selection < 16`:
for odd selections only the background nibble of the pen color changes — it
becomes `clrs[selection] / 2^12` (plus 8, the brightness bit, for the bright
variant) — and the foreground nibble is preserved exactly; for even selections
only the foreground nibble changes to `clrs[selection] / 2^8` (plus 8 when
bright) and the background nibble is preserved exactly.  With selection 0 and
commit-normal this makes the foreground nibble `clrs[0] / 2^8 = 0`, the
background nibble unchanged. -/
theorem commitColor_nibbles (color sel : Nat) (hsel : sel < 16) :
    (sel % 2 = 1 →
      fgNibble (getColor sel color) = fgNibble color ∧
      bgNibble (getColor sel color) = clrsAt sel / 2 ^ 12 ∧
      fgNibble (getBrightColor sel color) = fgNibble color ∧
      bgNibble (getBrightColor sel color) = clrsAt sel / 2 ^ 12 + 8) ∧
    (sel % 2 = 0 →
      bgNibble (getColor sel color) = bgNibble color ∧
      fgNibble (getColor sel color) = clrsAt sel / 2 ^ 8 ∧
      bgNibble (getBrightColor sel color) = bgNibble color ∧
      fgNibble (getBrightColor sel color) = clrsAt sel / 2 ^ 8 + 8) := by
  interval_cases sel <;>
    constructor <;>
      intro hpar <;>
        first
          | exact absurd hpar (by decide)
          | exact ⟨fg_preserved_odd _ _ (by decide), bg_set_odd _ _ (by decide),
              fg_preserved_odd _ _ (by decide),
              (bg_set_odd _ _ (by decide)).trans (by decide)⟩
          | exact ⟨bg_preserved_even _ _ (by decide), fg_set_even _ _ (by decide),
              bg_preserved_even _ _ (by decide),
              (fg_set_even _ _ (by decide)).trans (by decide)⟩

/-- C7 witness: the claim's scenario — selection 0, commit-normal, on pen
color `0x1234`. -/
theorem commitColor_nibbles_witness :
    bgNibble (getColor 0 0x1234) = bgNibble 0x1234 ∧
    fgNibble (getColor 0 0x1234) = clrsAt 0 / 2 ^ 8 :=
  ⟨((commitColor_nibbles 0x1234 0 (by decide)).2 rfl).1,
   ((commitColor_nibbles 0x1234 0 (by decide)).2 rfl).2.1⟩

/-- C10: pressing commit-normal ('e' = 101) or commit-bright ('r' = 114) while
the menu is open updates the pen color via `getColor`/`getBrightColor` and
rewrites the attribute byte of every one of the 2000 screen cells to the new
pen color while leaving every cell's character byte unchanged — the color
change applies retroactively to the whole existing screen. -/
theorem commit_repaints_screen (s : CState) (hm : s.menuStatus = true)
    (hlow : s.currentColor % 2 ^ 8 = 0) :
    ((handleInput 101 s).currentColor = getColor s.currentSelection s.currentColor ∧
     ∀ j, j < 2000 →
       charByte ((handleInput 101 s).screen j) = charByte (s.screen j) ∧
       attrByte ((handleInput 101 s).screen j) = attrByte ((handleInput 101 s).currentColor)) ∧
    ((handleInput 114 s).currentColor = getBrightColor s.currentSelection s.currentColor ∧
     ∀ j, j < 2000 →
       charByte ((handleInput 114 s).screen j) = charByte (s.screen j) ∧
       attrByte ((handleInput 114 s).screen j) = attrByte ((handleInput 114 s).currentColor)) := by
  constructor
  · refine ⟨rfl, ?_⟩
    intro j hj
    have hscr : (handleInput 101 s).screen =
        repaint (getColor s.currentSelection s.currentColor) s.screen := rfl
    rw [hscr, repaint_at _ _ hj]
    refine ⟨charByte_repaint _ _ (getColor_low _ _ hlow), ?_⟩
    rw [attrByte_repaint]
    exact rfl
  · refine ⟨rfl, ?_⟩
    intro j hj
    have hscr : (handleInput 114 s).screen =
        repaint (getBrightColor s.currentSelection s.currentColor) s.screen := rfl
    rw [hscr, repaint_at _ _ hj]
    refine ⟨charByte_repaint _ _ (getBrightColor_low _ _ hlow), ?_⟩
    rw [attrByte_repaint]
    exact rfl

/-- C10 witness: the commit keys in the concrete menu-open state. -/
theorem commit_repaints_screen_witness :
    (handleInput 101 c4state).currentColor =
      getColor c4state.currentSelection c4state.currentColor ∧
    charByte ((handleInput 101 c4state).screen 5) = charByte (c4state.screen 5) ∧
    attrByte ((handleInput 114 c4state).screen 7) =
      attrByte ((handleInput 114 c4state).currentColor) :=
  ⟨(commit_repaints_screen c4state rfl (by decide)).1.1,
   ((commit_repaints_screen c4state rfl (by decide)).1.2 5 (by decide)).1,
   ((commit_repaints_screen c4state rfl (by decide)).2.2 7 (by decide)).2⟩

end Console


namespace Console

/-- From any entry cursor position at most 1919 (row index below 24), the
computed position after one character is at most 1920. -/
theorem advancePos_le (c pos color : Nat) (scr : Nat → Nat) (h : pos ≤ 1919) :
    (advancePos c pos color scr).1 ≤ 1920 := by
  unfold advancePos
  split_ifs <;> simp <;> omega

/-- The cleared-then-moved screen of the code's scroll equals the claim's
copy-then-clear description: copying only 23 rows and then clearing the last
region row coincides with copying 24 rows and then clearing that row. -/
theorem scrollClear_eq_claim (scr : Nat → Nat) :
    scrollClear 1840 (scrollMove scr) = claimCleared scr := by
  funext j
  unfold scrollClear scrollMove claimCleared claimCopied
  split_ifs <;> first | rfl | omega

/-- A scroll triggered at computed position 1920 produces exactly the claim's
scroll effect, cursor moved back one row width. -/
theorem scrollStep_eq_claim (color : Nat) (scr : Nat → Nat) :
    scrollStep 1920 color scr = (1840, claimScrollScreen color scr) := by
  have hc : scrollClear (1920 - 80) (scrollMove scr) = claimCleared scr := by
    norm_num [scrollClear_eq_claim]
  simp only [scrollStep, hc]
  norm_num
  unfold claimScrollScreen
  by_cases hcol : color = 0x0700
  · simp [hcol]
  · simp only [if_neg hcol, if_pos hcol]
    funext j
    by_cases hj : 1840 ≤ j ∧ j < 1920
    · rw [repaintLastRow_at _ _ hj.1 hj.2, if_pos hj]
    · rw [repaintLastRow_miss _ _ (by omega), if_neg hj]

/-- C8: whenever a put (`cgaputc`) from a reachable entry position
(`pos ≤ 1919`) computes a cursor position in the scroll row (`pos / 80 ≥ 24`),
the scroll runs and has exactly the claimed effect: rows are copied up one row,
the new last row of the scroll region is cleared to blank cells and — iff the
pen color differs from the plain default `0x0700` — its attribute bytes are
repainted to the pen color, and the cursor moves back by exactly one row width
(80, landing on 1840); the put then writes its usual trailing blank at the
cursor. -/
theorem scroll_effect (c pos color : Nat) (scr : Nat → Nat) (hpos : pos ≤ 1919)
    (htrig : (advancePos c pos color scr).1 / 80 ≥ 24) :
    cgaputc c pos color scr =
      some (1840,
        fun j => if j = 1840 then (32 ||| color) % 65536
          else claimScrollScreen color (advancePos c pos color scr).2 j) := by
  have ha1 : (advancePos c pos color scr).1 ≤ 1920 := advancePos_le c pos color scr hpos
  have heq : (advancePos c pos color scr).1 = 1920 := by omega
  simp only [cgaputc, heq]
  rw [if_neg (by omega), if_pos (by omega : 1920 / 80 ≥ 24), scrollStep_eq_claim]

/-- C8 witness: a printable character put at entry position 1919 (the last
cell of the scroll region) with a non-default pen color. -/
theorem scroll_effect_witness :
    cgaputc 88 1919 0x1200 (fun _ => 7) =
      some (1840,
        fun j => if j = 1840 then (32 ||| 0x1200) % 65536
          else claimScrollScreen 0x1200 (advancePos 88 1919 0x1200 (fun _ => 7)).2 j) :=
  scroll_effect 88 1919 0x1200 (fun _ => 7) (by omega) (by decide)

/-- C9: for every entry cursor position `pos ≤ 1919` (the positions reachable
on entry to a put, as the same theorem shows every exit position is of that
form) and every character, the computed position stays within `[0, 2000]`, so
the fatal-halt branch is not taken and the put returns normally with an exit
cursor strictly below the scroll threshold (row index < 24); moreover the
fatal halt (`panic`, the `none` result) fires exactly when the computed
position exceeds 2000 (it cannot be negative). -/
theorem cgaputc_cursor_safe (c pos color : Nat) (scr : Nat → Nat) (hpos : pos ≤ 1919) :
    ((advancePos c pos color scr).1 ≤ 2000 ∧
     ∃ pos2 scr2, cgaputc c pos color scr = some (pos2, scr2) ∧ pos2 / 80 < 24 ∧
       pos2 ≤ 1919) ∧
    (∀ c' p' col' s', cgaputc c' p' col' s' = none ↔ 2000 < (advancePos c' p' col' s').1) := by
  have ha1 : (advancePos c pos color scr).1 ≤ 1920 := advancePos_le c pos color scr hpos
  constructor
  · refine ⟨by omega, ?_⟩
    simp only [cgaputc]
    rw [if_neg (by omega)]
    by_cases htrig : (advancePos c pos color scr).1 / 80 ≥ 24
    · rw [if_pos htrig]
      refine ⟨_, _, rfl, ?_, ?_⟩
      · have h1 : (scrollStep (advancePos c pos color scr).1 color
            (advancePos c pos color scr).2).1 = (advancePos c pos color scr).1 - 80 := rfl
        omega
      · have h1 : (scrollStep (advancePos c pos color scr).1 color
            (advancePos c pos color scr).2).1 = (advancePos c pos color scr).1 - 80 := rfl
        omega
    · rw [if_neg htrig]
      exact ⟨_, _, rfl, by omega, by omega⟩
  · intro c' p' col' s'
    simp only [cgaputc]
    split_ifs with h
    · simp [h]
    · simp only [reduceCtorEq, false_iff]
      omega

/-- C9 witness: a newline put at entry position 1900 stays in bounds and exits
below the scroll row. -/
theorem cgaputc_cursor_safe_witness :
    (advancePos 10 1900 0x0700 (fun _ => 0)).1 ≤ 2000 ∧
    ∃ pos2 scr2, cgaputc 10 1900 0x0700 (fun _ => 0) = some (pos2, scr2) ∧
      pos2 / 80 < 24 ∧ pos2 ≤ 1919 :=
  (cgaputc_cursor_safe 10 1900 0x0700 (fun _ => 0) (by omega)).1

end Console
